import Mathlib

/-
Verification of the scroll-driven animation and typing-effect engine of a
single-page portfolio application (src/frontend/src/App.tsx).

JavaScript strings are modelled as `List Char` (so `s.slice(0, n)` becomes
`List.take n` and `s.length` becomes `List.length`), and the React state of
each hook is modelled as an explicit state record together with a step
function describing what one run of the hook's effect (plus the timer it
schedules, if any) does to that state.
-/

/-- State of the useTypingEffect hook (App.tsx lines 54-57): the three
useState cells displayText, phraseIndex and isDeleting. -/
structure TypingState where
  displayText : List Char
  phraseIndex : Nat
  isDeleting : Bool
  deriving DecidableEq, Repr

/-- Initial state of useTypingEffect: displayText = "", phraseIndex = 0,
isDeleting = false (App.tsx lines 55-57). -/
def typingInit : TypingState :=
  { displayText := [], phraseIndex := 0, isDeleting := false }

/-- One run of the useTypingEffect effect body (App.tsx lines 59-77),
including the state change performed by the timer it schedules, as a
fallible step: `phrases[phraseIndex]` is `none` when the index is out of
range (JavaScript `undefined`), in which case the first two branch tests
still evaluate (`"" === undefined` is false; the second branch does not
read the phrase) but the third branch calls `.slice` on `undefined` and
faults, modelled as `none`. -/
def typingStep? (phrases : List (List Char)) (s : TypingState) : Option TypingState :=
  let currentPhrase? := phrases[s.phraseIndex]?
  if s.isDeleting = false ∧ currentPhrase? = some s.displayText then
    some { s with isDeleting := true }
  else if s.isDeleting = true ∧ s.displayText = [] then
    some { s with isDeleting := false, phraseIndex := (s.phraseIndex + 1) % phrases.length }
  else
    match currentPhrase? with
    | none => none
    | some currentPhrase =>
      some { s with displayText :=
        if s.isDeleting = true then currentPhrase.take (s.displayText.length - 1)
        else currentPhrase.take (s.displayText.length + 1) }

/-- Total version of the step of useTypingEffect (App.tsx lines 59-77),
used at states whose phrase index is in range (where it agrees with
`typingStep?`, see `typingStep?_eq_step`): branch 1 (line 63) pauses at the
full phrase, branch 2 (lines 65-67) advances the phrase index at the empty
display, branch 3 (lines 68-75) types or deletes one character via
`currentPhrase.slice(0, displayText.length ± 1)`. -/
def typingStep (phrases : List (List Char)) (s : TypingState) : TypingState :=
  let currentPhrase := phrases.getD s.phraseIndex []
  if s.isDeleting = false ∧ s.displayText = currentPhrase then
    { s with isDeleting := true }
  else if s.isDeleting = true ∧ s.displayText = [] then
    { s with isDeleting := false, phraseIndex := (s.phraseIndex + 1) % phrases.length }
  else
    { s with displayText :=
        if s.isDeleting = true then currentPhrase.take (s.displayText.length - 1)
        else currentPhrase.take (s.displayText.length + 1) }

/-- Invariant of useTypingEffect: the phrase index is in range and the
displayed text is a prefix (stated as an append decomposition) of the
current phrase. -/
def typingInvariant (phrases : List (List Char)) (s : TypingState) : Prop :=
  s.phraseIndex < phrases.length ∧
  ∃ rest, s.displayText ++ rest = phrases.getD s.phraseIndex []

theorem typingStep?_eq_step (phrases : List (List Char)) (s : TypingState)
    (h : s.phraseIndex < phrases.length) :
    typingStep? phrases s = some (typingStep phrases s) := by
  have hget : phrases[s.phraseIndex]? = some (phrases.getD s.phraseIndex []) := by
    rw [List.getElem?_eq_getElem h, List.getD_eq_getElem _ _ h]
  simp only [typingStep?, typingStep, hget]
  by_cases h1 : s.isDeleting = false ∧ s.displayText = phrases.getD s.phraseIndex []
  · rw [if_pos ⟨h1.1, by rw [h1.2]⟩, if_pos h1]
  · have h1' : ¬(s.isDeleting = false ∧
        phrases[s.phraseIndex]? = some s.displayText) := by
      rw [hget]
      intro hc
      exact h1 ⟨hc.1, by injection hc.2 with h2; exact h2.symm⟩
    rw [if_neg (by rw [hget] at h1'; exact h1'), if_neg h1]
    split_ifs <;> rfl

theorem typingStep_preserves (phrases : List (List Char)) (s : TypingState)
    (h : typingInvariant phrases s) :
    typingInvariant phrases (typingStep phrases s) := by
  obtain ⟨hidx, rest, hpre⟩ := h
  have hlen : 0 < phrases.length := Nat.lt_of_le_of_lt (Nat.zero_le _) hidx
  simp only [typingStep, typingInvariant]
  split_ifs with h1 h2 h3
  · exact ⟨hidx, rest, hpre⟩
  · refine ⟨Nat.mod_lt _ hlen, phrases.getD ((s.phraseIndex + 1) % phrases.length) [], ?_⟩
    simp [h2.2]
  · exact ⟨hidx, (phrases.getD s.phraseIndex []).drop (s.displayText.length - 1),
      List.take_append_drop _ _⟩
  · exact ⟨hidx, (phrases.getD s.phraseIndex []).drop (s.displayText.length + 1),
      List.take_append_drop _ _⟩

theorem typingInvariant_init (phrases : List (List Char)) (h : phrases ≠ []) :
    typingInvariant phrases typingInit := by
  refine ⟨List.length_pos.mpr h, phrases.getD 0 [], rfl⟩

/-- C1: for every phrase list of length ≥ 1, at every state of
useTypingEffect reachable from the initial state by timer-driven steps, the
displayed string is a prefix of the phrase at the current phrase index (an
append decomposition exists), hence its length lies between 0 and the
length of that phrase; the invariant is preserved by every step. -/
theorem typing_display_invariant (phrases : List (List Char)) (h : phrases ≠ [])
    (n : Nat) :
    typingInvariant phrases ((typingStep phrases)^[n] typingInit) ∧
    ((typingStep phrases)^[n] typingInit).displayText.length ≤
      (phrases.getD ((typingStep phrases)^[n] typingInit).phraseIndex []).length := by
  have hinv : ∀ m, typingInvariant phrases ((typingStep phrases)^[m] typingInit) := by
    intro m
    induction m with
    | zero => exact typingInvariant_init phrases h
    | succ k ih =>
      rw [Function.iterate_succ_apply']
      exact typingStep_preserves phrases _ ih
  refine ⟨hinv n, ?_⟩
  obtain ⟨-, rest, hpre⟩ := hinv n
  calc ((typingStep phrases)^[n] typingInit).displayText.length
      ≤ ((typingStep phrases)^[n] typingInit).displayText.length + rest.length :=
        Nat.le_add_right _ _
    _ = _ := by rw [← List.length_append, hpre]

/-- C1 witness: the invariant holds concretely after 3 steps on the phrase
list ["Hi"]. -/
theorem typing_display_invariant_witness :
    typingInvariant [['H', 'i']] ((typingStep [['H', 'i']])^[3] typingInit) ∧
    ((typingStep [['H', 'i']])^[3] typingInit).displayText.length ≤
      ((([['H', 'i']] : List (List Char))).getD
        ((typingStep [['H', 'i']])^[3] typingInit).phraseIndex []).length :=
  typing_display_invariant [['H', 'i']] (by decide) 3

/-- C10: with the empty phrase list, the very first step of useTypingEffect
faults (phrases[0] is undefined and `.slice` is invoked on it), while for
any state whose phrase index is in range the step is well-defined; the
non-empty-list precondition is therefore necessary for the engine to run. -/
theorem typing_empty_phrases_faults :
    typingStep? [] typingInit = none ∧
    ∀ (phrases : List (List Char)) (s : TypingState),
      s.phraseIndex < phrases.length →
      typingStep? phrases s = some (typingStep phrases s) := by
  exact ⟨rfl, fun phrases s h => typingStep?_eq_step phrases s h⟩

/-- C10 witness: the well-definedness half applied at the singleton list
["A"] and the initial state. -/
theorem typing_empty_phrases_faults_witness :
    typingStep? [['A']] typingInit = some (typingStep [['A']] typingInit) :=
  typing_empty_phrases_faults.2 [['A']] typingInit (by decide)

/-- Delay in milliseconds before the state change of one effect run of
useTypingEffect takes place (App.tsx lines 63-75): branch 1 schedules a
timer of pauseDuration, branch 2 performs its state change synchronously
(delay 0, no timer), branch 3 schedules a timer of deletingSpeed or
typingSpeed. -/
def typingDelay (phrases : List (List Char))
    (typingSpeed deletingSpeed pauseDuration : Nat) (s : TypingState) : Nat :=
  let currentPhrase := phrases.getD s.phraseIndex []
  if s.isDeleting = false ∧ s.displayText = currentPhrase then pauseDuration
  else if s.isDeleting = true ∧ s.displayText = [] then 0
  else if s.isDeleting = true then deletingSpeed else typingSpeed

/-- Number of setTimeout calls made by one effect run of useTypingEffect
(App.tsx lines 59-77): branch 1 (line 64) and branch 3 (lines 69-74) each
call setTimeout once; branch 2 (lines 65-67) calls setState synchronously
and schedules no timer. -/
def typingTimerCount (phrases : List (List Char)) (s : TypingState) : Nat :=
  let currentPhrase := phrases.getD s.phraseIndex []
  if s.isDeleting = false ∧ s.displayText = currentPhrase then 1
  else if s.isDeleting = true ∧ s.displayText = [] then 0
  else 1

/-- Simulation of the typing engine up to time t with a step-count fuel:
starting from state s entered at time `now`, keep applying the step as long
as the next state's entry time (`now` plus the current state's delay) is
at most t. -/
def typingSimulate (phrases : List (List Char))
    (typingSpeed deletingSpeed pauseDuration t : Nat) :
    Nat → TypingState → Nat → TypingState
  | 0, s, _ => s
  | fuel + 1, s, now =>
    if now + typingDelay phrases typingSpeed deletingSpeed pauseDuration s ≤ t then
      typingSimulate phrases typingSpeed deletingSpeed pauseDuration t fuel
        (typingStep phrases s)
        (now + typingDelay phrases typingSpeed deletingSpeed pauseDuration s)
    else s

/-- State of useTypingEffect sampled at time t (milliseconds after mount),
obtained by running the simulation from the initial state at time 0. -/
def typingStateAtTime (phrases : List (List Char))
    (typingSpeed deletingSpeed pauseDuration fuel t : Nat) : TypingState :=
  typingSimulate phrases typingSpeed deletingSpeed pauseDuration t fuel typingInit 0

/-- Phrase list ["A", "BB"] of the C3 scenario. -/
def scenarioPhrases : List (List Char) := [['A'], ['B', 'B']]

/-- C3: with phrases ["A", "BB"], typingSpeed 10, deletingSpeed 5 and
pauseDuration 100, starting at t = 0 from the empty display in the typing
phase: at t = 10 the display is "A"; the display stays "A" throughout
t = 10..110; at t = 115 the display is "" and the phrase index is 1; at
t = 125 the display is "B"; at t = 135 the display is "BB". -/
theorem typing_trace_scenario :
    (typingStateAtTime scenarioPhrases 10 5 100 20 10).displayText = ['A'] ∧
    (∀ t ∈ Finset.Icc 10 110,
      (typingStateAtTime scenarioPhrases 10 5 100 20 t).displayText = ['A']) ∧
    (typingStateAtTime scenarioPhrases 10 5 100 20 115).displayText = [] ∧
    (typingStateAtTime scenarioPhrases 10 5 100 20 115).phraseIndex = 1 ∧
    (typingStateAtTime scenarioPhrases 10 5 100 20 125).displayText = ['B'] ∧
    (typingStateAtTime scenarioPhrases 10 5 100 20 135).displayText = ['B', 'B'] := by
  refine ⟨by decide, ?_, by decide, by decide, by decide, by decide⟩
  decide

/-- C9 counterexample: at the state with empty display during Deleting (the
Deleting-to-Typing phrase advance), the effect run of useTypingEffect
schedules zero timers, not one as the claim states. -/
theorem typing_timer_count_cex :
    typingTimerCount [['A']]
      { displayText := [], phraseIndex := 0, isDeleting := true } = 0 ∧
    typingTimerCount [['A']]
      { displayText := [], phraseIndex := 0, isDeleting := true } ≠ 1 := by
  decide

/-- C9 amended: every effect run of useTypingEffect schedules exactly one
timer, except the Deleting-to-Typing phrase advance at the empty display
string, which performs its state change synchronously and schedules none. -/
theorem typing_timer_count_spec (phrases : List (List Char)) (s : TypingState) :
    typingTimerCount phrases s =
      if s.isDeleting = true ∧ s.displayText = [] then 0 else 1 := by
  simp only [typingTimerCount]
  by_cases hB : s.isDeleting = true ∧ s.displayText = []
  · simp [hB, hB.1]
  · simp [hB]

/-- C6: under the C1 invariant, each step of useTypingEffect changes the
display length by exactly +1 while typing (display not yet the full
phrase) and exactly -1 while deleting (display nonempty), and the engine
never skips states: the deleting flag turns on only when the display
equals the full current phrase, and turns off only when the display is
empty. -/
theorem typing_step_unit_change (phrases : List (List Char)) (s : TypingState)
    (hinv : typingInvariant phrases s) :
    (s.isDeleting = false → s.displayText ≠ phrases.getD s.phraseIndex [] →
      (typingStep phrases s).displayText.length = s.displayText.length + 1 ∧
      (typingStep phrases s).isDeleting = false) ∧
    (s.isDeleting = true → s.displayText ≠ [] →
      (typingStep phrases s).displayText.length + 1 = s.displayText.length ∧
      (typingStep phrases s).isDeleting = true) ∧
    (s.isDeleting = false → (typingStep phrases s).isDeleting = true →
      s.displayText = phrases.getD s.phraseIndex []) ∧
    (s.isDeleting = true → (typingStep phrases s).isDeleting = false →
      s.displayText = []) := by
  obtain ⟨hidx, rest, hpre⟩ := hinv
  have hlenle : s.displayText.length ≤ (phrases.getD s.phraseIndex []).length := by
    rw [← hpre, List.length_append]; omega
  refine ⟨?_, ?_, ?_, ?_⟩
  · intro hd hne
    have hlt : s.displayText.length < (phrases.getD s.phraseIndex []).length := by
      rcases Nat.lt_or_ge s.displayText.length (phrases.getD s.phraseIndex []).length
        with h | h
      · exact h
      · exfalso
        apply hne
        have hr : rest.length = 0 := by
          have hl := congrArg List.length hpre
          rw [List.length_append] at hl
          omega
        rw [List.length_eq_zero] at hr
        rw [hr, List.append_nil] at hpre
        exact hpre
    have h1 : ¬(s.isDeleting = false ∧ s.displayText = phrases.getD s.phraseIndex []) :=
      fun hc => hne hc.2
    have h2 : ¬(s.isDeleting = true ∧ s.displayText = []) := fun hc => by
      rw [hd] at hc
      exact Bool.false_ne_true hc.1
    simp only [typingStep]
    rw [if_neg h1, if_neg h2]
    refine ⟨?_, hd⟩
    simp only [hd, Bool.false_eq_true, if_false, List.length_take]
    omega
  · intro hd hne
    have h1 : ¬(s.isDeleting = false ∧ s.displayText = phrases.getD s.phraseIndex []) :=
      fun hc => by
        rw [hd] at hc
        exact Bool.false_ne_true hc.1.symm
    have h2 : ¬(s.isDeleting = true ∧ s.displayText = []) := fun hc => hne hc.2
    have hpos : 0 < s.displayText.length := List.length_pos.mpr hne
    simp only [typingStep]
    rw [if_neg h1, if_neg h2]
    refine ⟨?_, hd⟩
    simp only [hd, if_true, List.length_take]
    omega
  · intro hd hstep
    by_contra hne
    have h1 : ¬(s.isDeleting = false ∧ s.displayText = phrases.getD s.phraseIndex []) :=
      fun hc => hne hc.2
    have h2 : ¬(s.isDeleting = true ∧ s.displayText = []) := fun hc => by
      rw [hd] at hc
      exact Bool.false_ne_true hc.1
    simp only [typingStep] at hstep
    rw [if_neg h1, if_neg h2] at hstep
    rw [hd] at hstep
    exact Bool.false_ne_true hstep
  · intro hd hstep
    by_contra hne
    have h1 : ¬(s.isDeleting = false ∧ s.displayText = phrases.getD s.phraseIndex []) :=
      fun hc => by
        rw [hd] at hc
        exact Bool.false_ne_true hc.1.symm
    have h2 : ¬(s.isDeleting = true ∧ s.displayText = []) := fun hc => hne hc.2
    simp only [typingStep] at hstep
    rw [if_neg h1, if_neg h2] at hstep
    rw [hd] at hstep
    exact Bool.false_ne_true hstep.symm

/-- C6 witness: one typing step on the list ["Hi"] from display "H" grows
the display length from 1 to 2 and keeps the typing phase. -/
theorem typing_step_unit_change_witness :
    (typingStep [['H', 'i']]
      { displayText := ['H'], phraseIndex := 0, isDeleting := false }).displayText.length =
      (['H'] : List Char).length + 1 ∧
    (typingStep [['H', 'i']]
      { displayText := ['H'], phraseIndex := 0, isDeleting := false }).isDeleting = false :=
  (typing_step_unit_change [['H', 'i']]
    { displayText := ['H'], phraseIndex := 0, isDeleting := false }
    ⟨by decide, ⟨['i'], rfl⟩⟩).1 rfl (by decide)

/-- State of the useScrollAnimation hook (App.tsx lines 32-51): the
isVisible useState cell and whether the IntersectionObserver is still
observing (it is disconnected inside the callback once an intersecting
entry arrives). -/
structure ObserverState where
  isVisible : Bool
  observing : Bool
  deriving DecidableEq, Repr

/-- Initial state of useScrollAnimation: isVisible = false, observer
observing (App.tsx lines 34-46). -/
def observerInit : ObserverState := { isVisible := false, observing := true }

/-- One intersection notification delivered to the useScrollAnimation
callback (App.tsx lines 38-43): if the observer is still connected and the
entry is intersecting (its visible fraction meets the threshold, default
0.15), set isVisible to true and disconnect; otherwise nothing changes
(a disconnected observer delivers no further callbacks). -/
def observerNotify (s : ObserverState) (isIntersecting : Bool) : ObserverState :=
  if s.observing = true ∧ isIntersecting = true then
    { isVisible := true, observing := false }
  else s

theorem observerNotify_visible (s : ObserverState) (e : Bool) (h : s.isVisible = true) :
    (observerNotify s e).isVisible = true := by
  unfold observerNotify
  split_ifs with hc
  · rfl
  · exact h

theorem observerFold_visible (s : ObserverState) (events : List Bool)
    (h : s.isVisible = true) :
    (List.foldl observerNotify s events).isVisible = true := by
  induction events generalizing s with
  | nil => exact h
  | cons e es ih => exact ih _ (observerNotify_visible s e h)

theorem observerFold_fired (events : List Bool) :
    List.foldl observerNotify { isVisible := true, observing := false } events =
      { isVisible := true, observing := false } := by
  induction events with
  | nil => rfl
  | cons e es ih => simpa [observerNotify] using ih

theorem observerFold_init (events : List Bool) :
    List.foldl observerNotify observerInit events =
      if events.contains true then { isVisible := true, observing := false }
      else observerInit := by
  induction events with
  | nil => rfl
  | cons e es ih =>
    cases e with
    | false =>
      have h0 : observerNotify observerInit false = observerInit := by decide
      simp [List.foldl_cons, h0, ih]
    | true =>
      have h1 : observerNotify observerInit true =
          { isVisible := true, observing := false } := by decide
      simp [List.foldl_cons, h1, observerFold_fired]

/-- C4: the visibility signal of useScrollAnimation starts false, is true
after a sequence of intersection notifications exactly when some
notification was intersecting (so it turns true at the first such
notification), once true it stays true under arbitrary further
notifications, and once true the observer is disconnected, so the signal
fires at most once. -/
theorem visibility_monotone :
    observerInit.isVisible = false ∧
    (∀ events : List Bool,
      (List.foldl observerNotify observerInit events).isVisible = events.contains true) ∧
    (∀ (s : ObserverState) (events : List Bool), s.isVisible = true →
      (List.foldl observerNotify s events).isVisible = true) ∧
    (∀ events : List Bool,
      (List.foldl observerNotify observerInit events).isVisible = true →
      (List.foldl observerNotify observerInit events).observing = false) := by
  refine ⟨rfl, ?_, fun s events h => observerFold_visible s events h, ?_⟩
  · intro events
    rw [observerFold_init]
    by_cases h : events.contains true = true
    · rw [if_pos h, h]
    · rw [if_neg h]
      simp only [observerInit]
      exact (Bool.not_eq_true _).mp h ▸ rfl
  · intro events h
    rw [observerFold_init] at h ⊢
    by_cases hc : events.contains true = true
    · rw [if_pos hc]
    · rw [if_neg hc] at h
      exact absurd h Bool.false_ne_true

/-- C4 witness: starting from an already-fired tracker, further scroll
notifications leave the signal true. -/
theorem visibility_monotone_witness :
    (List.foldl observerNotify { isVisible := true, observing := false }
      [false, true, false]).isVisible = true :=
  visibility_monotone.2.2.1 { isVisible := true, observing := false }
    [false, true, false] rfl

theorem find?_eq_head?_filter {α : Type} (p : α → Bool) (l : List α) :
    l.find? p = (l.filter p).head? := by
  induction l with
  | nil => rfl
  | cons a l ih =>
    rw [List.find?_cons, List.filter_cons]
    cases h : p a
    · simpa using ih
    · simp

theorem find?_reverse_eq_getLast?_filter {α : Type} (p : α → Bool) (l : List α) :
    l.reverse.find? p = (l.filter p).getLast? := by
  rw [find?_eq_head?_filter, List.filter_reverse, List.head?_reverse]

/-- Section of the page as seen by the Navbar scroll handler: an id from
NAV_LINKS and the element's offsetTop (App.tsx lines 163-174, 186-188). -/
structure NavSection where
  id : String
  offsetTop : Int
  deriving DecidableEq, Repr

/-- State of the Navbar component (App.tsx lines 177-179): the scrolled,
mobileOpen and activeSection useState cells. -/
structure NavState where
  scrolled : Bool
  mobileOpen : Bool
  activeSection : String
  deriving DecidableEq, Repr

/-- Initial Navbar state: scrolled = false, mobileOpen = false,
activeSection = "home" (App.tsx lines 177-179). -/
def navInit : NavState :=
  { scrolled := false, mobileOpen := false, activeSection := "home" }

/-- Active-section computation of the Navbar scroll handler (App.tsx lines
185-192): iterate the section list from last to first and select the id of
the first section whose offsetTop is at most scrollY + 80; when no section
qualifies, setActiveSection is never called and the previous value is
kept. -/
def findActiveSection (sections : List NavSection) (scrollY : Int)
    (current : String) : String :=
  match sections.reverse.find? (fun sec => decide (sec.offsetTop ≤ scrollY + 80)) with
  | some sec => sec.id
  | none => current

/-- One run of the Navbar scroll handler (App.tsx lines 183-193): update
the scrolled flag (scrollY > 50) and the active section. -/
def handleScroll (sections : List NavSection) (scrollY : Int) (s : NavState) : NavState :=
  { s with
    scrolled := decide (scrollY > 50),
    activeSection := findActiveSection sections scrollY s.activeSection }

/-- Mount effect of the Navbar (App.tsx lines 181-196): it only registers
handleScroll as a scroll-event listener and returns the cleanup that
removes it; it does not invoke handleScroll, so the Navbar state is
unchanged until the first scroll event. -/
def navMountEffect (s : NavState) : NavState := s

/-- Section offsets of the C2 scenario: [home, about, skills, education]
at top offsets [0, 800, 1600, 2400]. -/
def scenarioSections : List NavSection :=
  [{ id := "home", offsetTop := 0 }, { id := "about", offsetTop := 800 },
   { id := "skills", offsetTop := 1600 }, { id := "education", offsetTop := 2400 }]

/-- C2 counterexample: on initial mount the Navbar does not recompute the
active section, so with the scenario offsets and the page already at
scroll offset 850 the active section after mount is still "home", not
"about" as the claim's mount clause requires (a scroll event at offset
850 does yield "about"). -/
theorem navbar_mount_cex :
    (navMountEffect navInit).activeSection = "home" ∧
    (navMountEffect navInit).activeSection ≠ "about" ∧
    (handleScroll scenarioSections 850 navInit).activeSection = "about" := by
  refine ⟨rfl, by decide, ?_⟩
  decide

/-- C2 amended: on every scroll event the Navbar sets the active section
to the id of the section appearing latest in document order among those
whose top offset is at most the scroll offset plus the 80px lookahead
(keeping the previous id when none qualifies), by iterating the section
list last-to-first and taking the first match; on initial mount no
recomputation happens. With offsets [0, 800, 1600, 2400] for [home,
about, skills, education] and scroll offset 850, the active id is
"about". -/
theorem navbar_active_section_spec :
    (∀ (sections : List NavSection) (scrollY : Int) (current : String),
      findActiveSection sections scrollY current =
        (((sections.filter (fun sec => decide (sec.offsetTop ≤ scrollY + 80))).getLast?).map
          NavSection.id).getD current) ∧
    (handleScroll scenarioSections 850 navInit).activeSection = "about" ∧
    navMountEffect navInit = navInit := by
  refine ⟨?_, by decide, rfl⟩
  intro sections scrollY current
  unfold findActiveSection
  rw [find?_reverse_eq_getLast?_filter]
  cases (sections.filter (fun sec => decide (sec.offsetTop ≤ scrollY + 80))).getLast? <;> rfl

/-- Width state of AnimatedProgressBar sampled at time t (App.tsx lines
83-92): the width useState cell starts at 0; once isVisible turns true (at
time visibleAt, none when the tracker never fired) the effect schedules a
200ms timer whose callback sets width to the value prop, unmodified —
there is no range check or clamping. The bar's CSS transition then eases
the rendered width toward this state value over 1000ms, so any sample
taken after the transition has elapsed shows exactly this value. -/
def barWidthAtTime (value : Nat) (visibleAt : Option Nat) (t : Nat) : Nat :=
  match visibleAt with
  | none => 0
  | some tv => if tv + 200 ≤ t then value else 0

/-- Stroke dash offset of LanguageCircle (App.tsx lines 940-941):
`circumference - (isVisible ? (value / 100) * circumference :
circumference)`, with no clamping of value. -/
def strokeDashoffset (circumference : ℚ) (isVisible : Bool) (value : ℚ) : ℚ :=
  circumference - (if isVisible = true then value / 100 * circumference else circumference)

/-- Static value props passed to AnimatedProgressBar in the Skills section
(App.tsx lines 568-572). -/
def skillBarValues : List Nat := [85, 90, 92, 75, 78]

/-- Static value fields of languagesData, passed to LanguageCircle
(App.tsx lines 932-936). -/
def languagesDataValues : List Nat := [100, 90, 50]

/-- C7: for an AnimatedProgressBar with target value at most 100, the
width is 0 before the tracker fires and during the 200ms delay after it
fires; from 200ms after visibility on, the width equals the target value
exactly and never changes again, so a sample taken after the CSS
animation duration has elapsed equals the target. -/
theorem progressBar_reaches_target (value : Nat) (hv : value ≤ 100) :
    (∀ t, barWidthAtTime value none t = 0) ∧
    (∀ tv t, t < tv + 200 → barWidthAtTime value (some tv) t = 0) ∧
    (∀ tv t, tv + 200 ≤ t → barWidthAtTime value (some tv) t = value) ∧
    (∀ tv t u, tv + 200 ≤ t → t ≤ u →
      barWidthAtTime value (some tv) u = barWidthAtTime value (some tv) t) := by
  refine ⟨fun t => rfl, ?_, ?_, ?_⟩
  · intro tv t ht
    simp only [barWidthAtTime]
    rw [if_neg (by omega)]
  · intro tv t ht
    simp only [barWidthAtTime]
    rw [if_pos ht]
  · intro tv t u ht htu
    simp only [barWidthAtTime]
    rw [if_pos ht, if_pos (by omega)]

/-- C7 witness: the bar with target 90 shows 0 at time 100 after
visibility at time 0, and exactly 90 at time 1400. -/
theorem progressBar_reaches_target_witness :
    barWidthAtTime 90 (some 0) 100 = 0 ∧ barWidthAtTime 90 (some 0) 1400 = 90 :=
  ⟨(progressBar_reaches_target 90 (by decide)).2.1 0 100 (by decide),
   (progressBar_reaches_target 90 (by decide)).2.2.1 0 1400 (by decide)⟩

/-- C8 counterexample: an out-of-range target of 150 is not rejected: the
bar width animates to 150, a value outside [0,100], and the circle's
stroke fill fraction becomes 150/100 of the circumference. -/
theorem progress_clamp_cex :
    barWidthAtTime 150 (some 0) 1400 = 150 ∧ ¬(150 ≤ 100) ∧
    strokeDashoffset 1 true (150 : ℚ) = -(1 / 2) := by
  refine ⟨by decide, by decide, ?_⟩
  norm_num [strokeDashoffset]

/-- C8 amended: the implementation performs no validation or clamping of
progress targets: any target value, in range or not, is passed through
unchanged to the animated width, and the circle's stroke offset is
computed from the raw value; all targets that actually occur in the
repository are static literals lying in [0,100]. -/
theorem progress_targets_in_range :
    (∀ value tv, barWidthAtTime value (some tv) (tv + 200) = value) ∧
    (∀ c value : ℚ, strokeDashoffset c true value = c - value / 100 * c) ∧
    (∀ v ∈ skillBarValues, v ≤ 100) ∧
    (∀ v ∈ languagesDataValues, v ≤ 100) := by
  refine ⟨?_, ?_, by decide, by decide⟩
  · intro value tv
    simp only [barWidthAtTime]
    rw [if_pos (Nat.le_refl _)]
  · intro c value
    simp [strokeDashoffset]

/-- C8 witness: pass-through of the width at the concrete target 85, and
membership checks for the static data. -/
theorem progress_targets_in_range_witness :
    barWidthAtTime 85 (some 0) 200 = 85 ∧ (85 : Nat) ≤ 100 :=
  ⟨progress_targets_in_range.1 85 0,
   progress_targets_in_range.2.2.1 85 (by decide)⟩

/-- One full type/pause/delete cycle of useTypingEffect from a state s:
with p the phrase at the current index, typing p takes p.length steps,
the pause takes one step, deleting takes p.length steps and the phrase
advance at the empty display takes one step, 2 * p.length + 2 effect runs
in all. -/
def typingCycle (phrases : List (List Char)) (s : TypingState) : TypingState :=
  (typingStep phrases)^[2 * (phrases.getD s.phraseIndex []).length + 2] s

theorem typing_run_up (phrases : List (List Char)) (i k : Nat)
    (hk : k ≤ (phrases.getD i []).length) :
    (typingStep phrases)^[k]
        { displayText := [], phraseIndex := i, isDeleting := false } =
      { displayText := (phrases.getD i []).take k, phraseIndex := i,
        isDeleting := false } := by
  induction k with
  | zero => rfl
  | succ n ih =>
    rw [Function.iterate_succ_apply', ih (by omega)]
    have hmin : min n (phrases.getD i []).length = n := Nat.min_eq_left (by omega)
    have hne : (phrases.getD i []).take n ≠ phrases.getD i [] := by
      intro he
      have hl := congrArg List.length he
      rw [List.length_take, hmin] at hl
      omega
    simp only [typingStep]
    rw [if_neg (fun hc => hne hc.2), if_neg (fun hc => Bool.false_ne_true hc.1)]
    simp [List.length_take, hmin]
    omega

theorem typing_pause (phrases : List (List Char)) (i : Nat) :
    typingStep phrases
        { displayText := phrases.getD i [], phraseIndex := i, isDeleting := false } =
      { displayText := phrases.getD i [], phraseIndex := i, isDeleting := true } := by
  simp [typingStep]

theorem typing_run_down (phrases : List (List Char)) (i k : Nat)
    (hk : k ≤ (phrases.getD i []).length) :
    (typingStep phrases)^[k]
        { displayText := phrases.getD i [], phraseIndex := i, isDeleting := true } =
      { displayText := (phrases.getD i []).take ((phrases.getD i []).length - k),
        phraseIndex := i, isDeleting := true } := by
  induction k with
  | zero => simp [List.take_length]
  | succ n ih =>
    rw [Function.iterate_succ_apply', ih (by omega)]
    have hmin : min ((phrases.getD i []).length - n) (phrases.getD i []).length
        = (phrases.getD i []).length - n := Nat.min_eq_left (by omega)
    have hne : (phrases.getD i []).take ((phrases.getD i []).length - n) ≠ [] := by
      intro he
      have hl := congrArg List.length he
      rw [List.length_take] at hl
      simp only [List.length_nil] at hl
      omega
    simp only [typingStep]
    rw [if_neg (fun hc => Bool.false_ne_true hc.1.symm), if_neg (fun hc => hne hc.2)]
    simp [List.length_take, hmin]
    omega

theorem typing_wrap (phrases : List (List Char)) (i : Nat) :
    typingStep phrases { displayText := [], phraseIndex := i, isDeleting := true } =
      { displayText := [], phraseIndex := (i + 1) % phrases.length,
        isDeleting := false } := by
  simp [typingStep]

theorem typingCycle_advance (phrases : List (List Char)) (i : Nat) :
    typingCycle phrases { displayText := [], phraseIndex := i, isDeleting := false } =
      { displayText := [], phraseIndex := (i + 1) % phrases.length,
        isDeleting := false } := by
  unfold typingCycle
  have hsplit : 2 * (phrases.getD i []).length + 2
      = ((1 + (phrases.getD i []).length) + 1) + (phrases.getD i []).length := by omega
  rw [hsplit, Function.iterate_add_apply, Function.iterate_add_apply,
    Function.iterate_add_apply, typing_run_up phrases i _ (Nat.le_refl _),
    List.take_length, Function.iterate_one, typing_pause,
    typing_run_down phrases i _ (Nat.le_refl _), Nat.sub_self, List.take_zero,
    typing_wrap]

theorem typingCycle_iter (phrases : List (List Char)) (N : Nat) :
    (typingCycle phrases)^[N] typingInit =
      { displayText := [], phraseIndex := N % phrases.length,
        isDeleting := false } := by
  induction N with
  | zero => rfl
  | succ n ih =>
    rw [Function.iterate_succ_apply', ih, typingCycle_advance]
    rw [Nat.mod_add_mod]

/-- C5: for every non-empty phrase list, after N full type/pause/delete
cycles of useTypingEffect starting from index 0, the active phrase index
is N mod the list length; and whenever the display empties during
Deleting, one step advances the index by exactly one modulo the list
length. -/
theorem typing_cycle_index_mod (phrases : List (List Char)) (h : phrases ≠ [])
    (N : Nat) :
    ((typingCycle phrases)^[N] typingInit).phraseIndex = N % phrases.length ∧
    ∀ s : TypingState, s.isDeleting = true → s.displayText = [] →
      (typingStep phrases s).phraseIndex = (s.phraseIndex + 1) % phrases.length := by
  refine ⟨by rw [typingCycle_iter phrases N], ?_⟩
  intro s hd hdisp
  simp only [typingStep]
  rw [if_neg (fun hc => by rw [hd] at hc; exact Bool.false_ne_true hc.1.symm),
    if_pos ⟨hd, hdisp⟩]

/-- C5 witness: with the phrases ["A", "BB"], after 3 cycles the phrase
index is 3 mod 2 = 1, and the advance step at the empty display during
Deleting moves index 0 to 1 mod 2. -/
theorem typing_cycle_index_mod_witness :
    ((typingCycle scenarioPhrases)^[3] typingInit).phraseIndex =
      3 % scenarioPhrases.length ∧
    (typingStep scenarioPhrases
      { displayText := [], phraseIndex := 0, isDeleting := true }).phraseIndex =
      (0 + 1) % scenarioPhrases.length :=
  ⟨(typing_cycle_index_mod scenarioPhrases (by decide) 3).1,
   (typing_cycle_index_mod scenarioPhrases (by decide) 3).2
     { displayText := [], phraseIndex := 0, isDeleting := true } rfl rfl⟩
